import Mathlib

/-!
Shallow embedding of the project-mira backend (src/backend/main.py and
src/backend/merging.py).

Modelling conventions:
* JSON / Python values are the inductive `Mira.Json`.  Numeric JSON values in
  every code path relevant here are integer-valued, so numbers are modelled as
  `Int` (Python `float(...)` of an integer-valued expression is the identity
  on that integer).
* Python dictionaries are association lists; `dict.get`, membership tests and
  in-place update (`d[k] = v`, `d.update(...)`) are modelled by `aget`, `aset`
  and `dictUpdate`, which preserve Python's insertion-order semantics.
* Python exceptions are modelled with `Except PyErr`; an uncaught exception is
  an `Except.error` result.  Code that catches specific exception classes is
  modelled by matching only the corresponding constructors.
-/

namespace Mira

/-- A JSON value / the fragment of Python values produced by `json.load`. -/
inductive Json where
  | null
  | bool (b : Bool)
  | num (n : Int)
  | str (s : String)
  | arr (elems : List Json)
  | obj (fields : List (String × Json))
deriving Repr

/-- A Python-hashable JSON scalar, usable as a dictionary key.  Lists and
objects are unhashable in Python; a `null` id is skipped by the merger before
any hashing happens, so `null` never actually occurs as a key.  (Python's
`True == 1` key collision is not modelled; source ids are numbers/strings.) -/
inductive HKey where
  | null
  | bool (b : Bool)
  | num (n : Int)
  | str (s : String)
deriving DecidableEq, Repr

/-- The Json value a hashable key stands for. -/
def hkeyToJson : HKey → Json
  | .null => .null
  | .bool b => .bool b
  | .num n => .num n
  | .str s => .str s

/-- Python hashability test: scalars are hashable, containers are not. -/
def toHKey : Json → Option HKey
  | .null => some .null
  | .bool b => some (.bool b)
  | .num n => some (.num n)
  | .str s => some (.str s)
  | .arr _ => none
  | .obj _ => none

/-- Python exception classes that the modelled code can raise. -/
inductive PyErr where
  | typeError
  | valueError
  | attributeError
  | indexError
  | keyError
deriving DecidableEq, Repr

/-- A Python dictionary with string keys (a property record). -/
abbrev PropDict := List (String × Json)

/-- Lookup in an association list: Python `d[k]` / `d.get(k)` (first match;
Python dictionaries never hold a key twice). -/
def aget {κ α : Type} [DecidableEq κ] : List (κ × α) → κ → Option α
  | [], _ => none
  | (k', v) :: rest, k => if k' = k then some v else aget rest k

/-- Python `d[k] = v`: overwrite the value in place when the key is present,
otherwise append the new pair at the end (Python insertion order). -/
def aset {κ α : Type} [DecidableEq κ] : List (κ × α) → κ → α → List (κ × α)
  | [], k, v => [(k, v)]
  | (k', v') :: rest, k, v =>
    if k' = k then (k, v) :: rest else (k', v') :: aset rest k v

/-- Python `base.update(new)`: fold `d[k] = v` over the pairs of `new`. -/
def dictUpdate (base new : PropDict) : PropDict :=
  new.foldl (fun acc kv => aset acc kv.1 kv.2) base

/-- Python `d.get(k, default)`. -/
def dget (d : PropDict) (k : String) (default : Json) : Json :=
  (aget d k).getD default

/-- Is an `Except` an error (did the Python code raise)? -/
def exIsErr {ε α : Type} : Except ε α → Bool
  | .error _ => true
  | .ok _ => false

instance {ε α : Type} [DecidableEq ε] [DecidableEq α] : DecidableEq (Except ε α) :=
  fun x y =>
    match x, y with
    | .ok a, .ok b =>
      if h : a = b then .isTrue (by rw [h]) else .isFalse (by simp [h])
    | .error a, .error b =>
      if h : a = b then .isTrue (by rw [h]) else .isFalse (by simp [h])
    | .ok _, .error _ => .isFalse (by simp)
    | .error _, .ok _ => .isFalse (by simp)

/-- Python `needle in hay` on lists of characters: is `n` a contiguous
substring of `h`? -/
def charsContains (n : List Char) : List Char → Bool
  | [] => n.isEmpty
  | c :: t => n.isPrefixOf (c :: t) || charsContains n t

/-- Python `needle in hay` for strings (substring containment). -/
def strContains (hay needle : String) : Bool :=
  charsContains needle.data hay.data

/-- Numeric value of a non-empty run of decimal digits, `none` otherwise. -/
def digitsToNat (cs : List Char) : Option Nat :=
  if cs.isEmpty then none
  else cs.foldl
    (fun acc c =>
      acc.bind fun n => if c.isDigit then some (n * 10 + (c.toNat - 48)) else none)
    (some 0)

/-- Python `int(s)` on a string: an optional sign followed by digits, else
`ValueError`. -/
def pyIntOfStr (s : String) : Except PyErr Int :=
  match s.data with
  | '-' :: rest =>
    match digitsToNat rest with
    | some n => .ok (-(n : Int))
    | none => .error .valueError
  | '+' :: rest =>
    match digitsToNat rest with
    | some n => .ok (n : Int)
    | none => .error .valueError
  | cs =>
    match digitsToNat cs with
    | some n => .ok (n : Int)
    | none => .error .valueError

/-- Python `int(v)` coercion: ints are themselves, bools are 0/1, numeric
strings parse, everything else raises (`TypeError` for None/containers,
`ValueError` for bad strings). -/
def pyInt : Json → Except PyErr Int
  | .num n => .ok n
  | .bool b => .ok (if b then 1 else 0)
  | .str s => pyIntOfStr s
  | _ => .error .typeError

/-- Python `s.lower()` on a string (character-wise lowering; the source data
is ASCII). -/
def strLower (s : String) : String :=
  String.mk (s.data.map Char.toLower)

/-- Python `v.lower()`: only strings have `.lower`, anything else raises
`AttributeError`. -/
def pyStrLower : Json → Except PyErr String
  | .str s => .ok (strLower s)
  | _ => .error .attributeError

/-- Python `[a.lower() for a in v]`: iterate `v` and lower each element.
Iterating a list yields its elements; a string yields its characters (as
1-character strings); a dict yields its keys; other values raise `TypeError`,
and a non-string element raises `AttributeError` at `a.lower()`. -/
def lowerElems : Json → Except PyErr (List String)
  | .arr xs => xs.mapM pyStrLower
  | .str s => .ok (s.data.map fun c => strLower (String.mk [c]))
  | .obj fields => .ok (fields.map fun kv => strLower kv.1)
  | _ => .error .typeError

/-! ## Feature Deriver — `prepare_model_input` (src/backend/main.py:114-160)

The source guards the field extraction with a single `if prop:` (Python
truthiness: `None` and the empty dict are both falsy).  Each helper below
repeats that guard; since the guard is pure this is observably identical to
testing it once. -/

/-- The feature record returned by `prepare_model_input`: fixed shape, the
schema the ML model expects. -/
structure FeatureRecord where
  property_type : String
  lot_area : Int
  building_area : Int
  bedrooms : Int
  bathrooms : Int
  year_built : Int
  has_pool : Bool
  has_garage : Bool
  school_rating : Int
deriving DecidableEq, Repr

/-- `int(prop.get(key, default)) if prop else default` — the extraction
pattern used for bedrooms, bathrooms, size_sqft, year_built, school_rating. -/
def coercedField (prop : Option PropDict) (key : String) (default : Int) :
    Except PyErr Int :=
  match prop with
  | some d => if d.isEmpty then .ok default else pyInt (dget d key (.num default))
  | none => .ok default

/-- `[a.lower() for a in prop.get("amenities", [])] if prop else []`. -/
def amenitiesVal (prop : Option PropDict) : Except PyErr (List String) :=
  match prop with
  | some d => if d.isEmpty then .ok [] else lowerElems (dget d "amenities" (.arr []))
  | none => .ok []

/-- `prop.get("title", "").lower() if prop else ""`. -/
def titleVal (prop : Option PropDict) : Except PyErr String :=
  match prop with
  | some d => if d.isEmpty then .ok "" else pyStrLower (dget d "title" (.str ""))
  | none => .ok ""

/-- `bedrooms >= 4 or "house" in (prop.get("title", "").lower() if prop else "")`
— note Python's `or` short-circuits, so the title expression is only
evaluated (and can only raise) when `bedrooms < 4`. -/
def sfhTest (prop : Option PropDict) (bedrooms : Int) : Except PyErr Bool :=
  if bedrooms ≥ 4 then .ok true
  else
    match titleVal prop with
    | .error e => .error e
    | .ok t => .ok (strContains t "house")

/-- `prepare_model_input` (src/backend/main.py:114-160): derive the feature
record from a raw property dict, imputing defaults for missing fields.  An
`Except.error` result models an uncaught Python exception. -/
def prepare_model_input (prop : Option PropDict) : Except PyErr FeatureRecord :=
  match coercedField prop "bedrooms" 3 with
  | .error e => .error e
  | .ok bedrooms =>
  match coercedField prop "bathrooms" 2 with
  | .error e => .error e
  | .ok bathrooms =>
  match coercedField prop "size_sqft" 1500 with
  | .error e => .error e
  | .ok size =>
  match amenitiesVal prop with
  | .error e => .error e
  | .ok amenities =>
  match sfhTest prop bedrooms with
  | .error e => .error e
  | .ok isSFH =>
  let property_type := if isSFH then "SFH" else "Condo"
  let lot_area : Int := if property_type = "SFH" then size * 2 else 0
  let building_area : Int := if property_type = "Condo" then size else 0
  let has_pool := amenities.any fun a => strContains a "pool"
  let has_garage := amenities.any fun a => strContains a "garage"
  match coercedField prop "year_built" 2015 with
  | .error e => .error e
  | .ok year_built =>
  match coercedField prop "school_rating" 7 with
  | .error e => .error e
  | .ok school_rating =>
  .ok {
    property_type := property_type
    lot_area := lot_area
    building_area := building_area
    bedrooms := bedrooms
    bathrooms := bathrooms
    year_built := year_built
    has_pool := has_pool
    has_garage := has_garage
    school_rating := school_rating
  }

/-! ## Price Estimator — `predict_with_model` (src/backend/main.py:165-198) -/

/-- The serialised feature record as a Python dict, in the field order of the
literal returned by `prepare_model_input`. -/
def featuresDict (fr : FeatureRecord) : PropDict :=
  [("property_type", .str fr.property_type),
   ("lot_area", .num fr.lot_area),
   ("building_area", .num fr.building_area),
   ("bedrooms", .num fr.bedrooms),
   ("bathrooms", .num fr.bathrooms),
   ("year_built", .num fr.year_built),
   ("has_pool", .bool fr.has_pool),
   ("has_garage", .bool fr.has_garage),
   ("school_rating", .num fr.school_rating)]

/-- The feature record as a Json value (as serialised into the response). -/
def featuresJson (fr : FeatureRecord) : Json :=
  .obj (featuresDict fr)

/-- The three calling conventions `predict_with_model` tries on a loaded
model: a one-row pandas DataFrame built from `[input_data]`, the raw list
`[input_data]`, and the dict `input_data` itself. -/
inductive PredictArg where
  | frame (rows : List PropDict)
  | seq (rows : List PropDict)
  | dict (d : PropDict)

/-- A loaded model handle: an opaque `predict` that may raise. -/
structure Model where
  predict : PredictArg → Except PyErr Json

/-- Python `float(v)` on a scalar (numeric-valued data modelled as `Int`):
numbers and bools convert, numeric strings parse, everything else raises. -/
def pyFloat : Json → Except PyErr Int
  | .num n => .ok n
  | .bool b => .ok (if b then 1 else 0)
  | .str s => pyIntOfStr s
  | _ => .error .typeError

/-- Python `v[0]`: lists index positionally, strings yield a 1-character
string, dicts look up the key `0` (string-keyed JSON dicts never have it, so
`KeyError`), everything else is not subscriptable. -/
def getItem0 : Json → Except PyErr Json
  | .arr [] => .error .indexError
  | .arr (x :: _) => .ok x
  | .str s =>
    match s.data with
    | [] => .error .indexError
    | c :: _ => .ok (.str (String.mk [c]))
  | .obj _ => .error .keyError
  | _ => .error .typeError

/-- `float(pred[0])`: index the prediction and coerce to a number. -/
def scalar0 (v : Json) : Except PyErr Int :=
  match getItem0 v with
  | .error e => .error e
  | .ok x => pyFloat x

/-- Python `hasattr(pred, "__getitem__")`: true for lists, strings, dicts. -/
def hasGetitem : Json → Bool
  | .arr _ => true
  | .str _ => true
  | .obj _ => true
  | _ => false

/-- `float(pred[0]) if hasattr(pred, "__getitem__") else float(pred)` — the
scalar extraction of the third invocation shape. -/
def scalarDirect (v : Json) : Except PyErr Int :=
  if hasGetitem v then scalar0 v else pyFloat v

/-- One model invocation attempt: call `predict` and extract the scalar; any
error anywhere in the attempt is the attempt's failure (caught by the
surrounding `except`). -/
def attemptWith (extract : Json → Except PyErr Int) (m : Model)
    (arg : PredictArg) : Except PyErr Int :=
  match m.predict arg with
  | .error e => .error e
  | .ok v => extract v

/-- `predict_with_model` (src/backend/main.py:165-198).  With no model, the
rule-based price (`x or y` on an int is `x` unless `x == 0`); with a model,
the three invocation shapes in order, then the constant fallback `350000.0`.
The total return type (`Int`, no `Except`) reflects that this function never
raises. -/
def predict_with_model (model : Option Model) (input_data : FeatureRecord) : Int :=
  match model with
  | none =>
    let area : Int :=
      if input_data.building_area ≠ 0 then input_data.building_area
      else max 1 (Int.fdiv input_data.lot_area 2)
    let base := 200 * area
    base
      + input_data.bedrooms * 15000
      + input_data.bathrooms * 10000
      + (if input_data.has_pool then 50000 else 0)
      + (if input_data.has_garage then 20000 else 0)
  | some m =>
    let d := featuresDict input_data
    match attemptWith scalar0 m (.frame [d]) with
    | .ok x => x
    | .error _ =>
      match attemptWith scalar0 m (.seq [d]) with
      | .ok x => x
      | .error _ =>
        match attemptWith scalarDirect m (.dict d) with
        | .ok x => x
        | .error _ => 350000

/-- The rule-based price exactly as the specification words it:
`area = building_area if building_area != 0 else max(1, lot_area // 2)`;
`price = 200*area + 15000*bedrooms + 10000*bathrooms + (50000 if has_pool)
+ (20000 if has_garage)`.  Stated from the spec, to be compared with
`predict_with_model none`. -/
def specRulePrice (fr : FeatureRecord) : Int :=
  let area : Int :=
    if fr.building_area ≠ 0 then fr.building_area else max 1 (Int.fdiv fr.lot_area 2)
  200 * area + 15000 * fr.bedrooms + 10000 * fr.bathrooms
    + (if fr.has_pool then 50000 else 0) + (if fr.has_garage then 20000 else 0)

/-! ## `/compare` endpoint (src/backend/main.py:212-232) -/

/-- One side of a `/compare` request (the pydantic `LocationPayload`). -/
structure LocationPayload where
  label : String
  value : String
  property : PropDict

/-- The `/compare` handler (src/backend/main.py:212-232), parametrised by the
process-wide model handle.  `not req.addressN` is true exactly when the field
is absent (a present payload object is always truthy).  The response's
`result` is the pair of optional per-address records; the merged record
`{**prop, "predicted_price": ..., "features": ...}` is `dictUpdate`. -/
def compare (model : Option Model)
    (address1 address2 : Option LocationPayload) :
    Except PyErr (Option PropDict × Option PropDict) :=
  match address1, address2 with
  | some a1, some a2 =>
    let prop1 := a1.property
    let prop2 := a2.property
    match prepare_model_input (some prop1) with
    | .error e => .error e
    | .ok inp1 =>
    match prepare_model_input (some prop2) with
    | .error e => .error e
    | .ok inp2 =>
    let price1 := predict_with_model model inp1
    let price2 := predict_with_model model inp2
    let resp1 := dictUpdate prop1
      [("predicted_price", .num price1), ("features", featuresJson inp1)]
    let resp2 := dictUpdate prop2
      [("predicted_price", .num price2), ("features", featuresJson inp2)]
    .ok (some resp1, some resp2)
  | _, _ => .ok (none, none)

/-! ## Record Merger — `load_and_merge_data` (src/backend/merging.py:13-46)

A source file is modelled by what opening and `json.load`-ing it yields:
`missing` (`FileNotFoundError`), `malformed` (`json.JSONDecodeError`), or the
parsed Json value.  Only the first two are caught by the `except` clause; any
exception raised while iterating the parsed value propagates. -/

/-- The outcome of `open` + `json.load` for one file path. -/
inductive FileResult where
  | missing
  | malformed
  | parsed (j : Json)

/-- The accumulator `final_data_map`: insertion-ordered dict from property id
to the merged record. -/
abbrev IdMap := List (HKey × PropDict)

/-- `item.get("id")` followed by the `is not None` guard: `none` when the key
is absent or its value is JSON null (Python `None`). -/
def idStatus (fields : PropDict) : Option Json :=
  match aget fields "id" with
  | none => none
  | some .null => none
  | some v => some v

/-- Process one element of a parsed file's iteration
(src/backend/merging.py:26-37).  Non-dict items have no `.get` →
`AttributeError`; an unhashable id raises `TypeError` at the `in` test. -/
def processItem (m : IdMap) (item : Json) : Except PyErr IdMap :=
  match item with
  | .obj fields =>
    match idStatus fields with
    | none => .ok m
    | some v =>
      match toHKey v with
      | none => .error .typeError
      | some k => .ok (aset m k (dictUpdate ((aget m k).getD []) fields))
  | _ => .error .attributeError

/-- Iterate the parsed value of one file: lists yield elements, dicts yield
their keys (as strings), strings yield characters; other values are not
iterable (`TypeError`). -/
def processFile (m : IdMap) (j : Json) : Except PyErr IdMap :=
  match j with
  | .arr items => items.foldlM processItem m
  | .obj fields => fields.foldlM (fun acc kv => processItem acc (.str kv.1)) m
  | .str s => s.data.foldlM (fun acc c => processItem acc (.str (String.mk [c]))) m
  | _ => .error .typeError

/-- Per-file step of `load_and_merge_data`: the `except (FileNotFoundError,
json.JSONDecodeError)` clause catches exactly the missing/malformed cases;
errors from processing a successfully parsed value propagate. -/
def mergeStep (m : IdMap) (f : FileResult) : Except PyErr IdMap :=
  match f with
  | .missing => .ok m
  | .malformed => .ok m
  | .parsed j => processFile m j

/-- `load_and_merge_data` (src/backend/merging.py:13-46): fold the files in
order, then return `list(final_data_map.values())`. -/
def load_and_merge_data (files : List FileResult) : Except PyErr (List PropDict) :=
  match files.foldlM mergeStep ([] : IdMap) with
  | .error e => .error e
  | .ok m => .ok (m.map fun kv => kv.2)

/-- Did `json.load` succeed for this file?  (The merge skips the others.) -/
def parsedOf : FileResult → Option Json
  | .parsed j => some j
  | _ => none

/-- A parsed item the merge can process without raising: a dict whose id, if
present and non-null, is hashable. -/
def goodItem : Json → Bool
  | .obj fields =>
    match idStatus fields with
    | none => true
    | some v => (toHKey v).isSome
  | _ => false

/-- A file the merge can process without raising: unreadable/unparsable files
are caught and skipped; a parsed file must be an array of good items. -/
def goodFile : FileResult → Bool
  | .missing => true
  | .malformed => true
  | .parsed (.arr items) => items.all goodItem
  | .parsed _ => false

/-- A good item whose dict moreover has no duplicate key (always true of a
dict produced by `json.load`). -/
def cleanItem : Json → Bool
  | .obj fields =>
    goodItem (.obj fields) && decide (fields.map Prod.fst).Nodup
  | _ => false

/-- The successful (pure) merge step on one good item. -/
def stepJson (m : IdMap) (item : Json) : IdMap :=
  match item with
  | .obj fields =>
    match idStatus fields with
    | none => m
    | some v =>
      match toHKey v with
      | none => m
      | some k => aset m k (dictUpdate ((aget m k).getD []) fields)
  | _ => m

/-- The records of `items` whose (non-null, hashable) id equals `k`, in
order. -/
def recsWithId (k : HKey) (items : List Json) : List PropDict :=
  items.filterMap fun item =>
    match item with
    | .obj fields =>
      match idStatus fields with
      | some v => if toHKey v = some k then some fields else none
      | none => none
    | _ => none

/-- The hashable id under which an item would be merged, if any. -/
def idKeyOf : Json → Option HKey
  | .obj fields =>
    match idStatus fields with
    | some v => toHKey v
    | none => none
  | _ => none

/-- The pure per-file step: what `mergeStep` computes when it does not
raise (skipped files leave the map unchanged). -/
def pureFileStep (m : IdMap) (f : FileResult) : IdMap :=
  match f with
  | .parsed (.arr items) => items.foldl stepJson m
  | _ => m

/-- The pure merge of a list of files (the value `load_and_merge_data`'s
fold computes when no file raises). -/
def mergePure (files : List FileResult) : IdMap :=
  files.foldl pureFileStep []

/-- A model handle whose `predict` raises on every invocation shape. -/
def failModel : Model :=
  ⟨fun _ => .error .typeError⟩

/-- The feature record derived from an absent (or empty, or fully-defaulted)
property record. -/
def baselineFeatures : FeatureRecord :=
  { property_type := "Condo"
    lot_area := 0
    building_area := 1500
    bedrooms := 3
    bathrooms := 2
    year_built := 2015
    has_pool := false
    has_garage := false
    school_rating := 7 }

/-! ## Association-list lemmas -/

theorem aget_aset_self {κ α : Type} [DecidableEq κ] (d : List (κ × α)) (k : κ) (v : α) :
    aget (aset d k v) k = some v := by
  induction d with
  | nil => simp [aset, aget]
  | cons hd tl ih =>
    obtain ⟨k0, v0⟩ := hd
    by_cases h : k0 = k
    · subst h
      simp [aset, aget]
    · simp [aset, h, aget, ih]

theorem aget_aset_ne {κ α : Type} [DecidableEq κ] (d : List (κ × α)) (k k' : κ) (v : α)
    (h : k' ≠ k) : aget (aset d k v) k' = aget d k' := by
  have hne : ¬(k = k') := fun hh => h hh.symm
  induction d with
  | nil => simp [aset, aget, hne]
  | cons hd tl ih =>
    obtain ⟨k0, v0⟩ := hd
    by_cases hk : k0 = k
    · subst hk
      simp [aset, aget, hne]
    · by_cases hk' : k0 = k'
      · simp [aset, hk, aget, hk', h]
      · simp [aset, hk, aget, hk', ih]

theorem aget_eq_none_iff {κ α : Type} [DecidableEq κ] (d : List (κ × α)) (k : κ) :
    aget d k = none ↔ k ∉ d.map Prod.fst := by
  induction d with
  | nil => simp [aget]
  | cons hd tl ih =>
    obtain ⟨k0, v0⟩ := hd
    by_cases h : k0 = k
    · subst h
      simp [aget]
    · simp only [aget, if_neg h, List.map_cons, List.mem_cons, ih]
      constructor
      · intro hn hc
        rcases hc with he | hm
        · exact h he.symm
        · exact hn hm
      · intro hn hm
        exact hn (Or.inr hm)

theorem mem_of_aget_eq_some {κ α : Type} [DecidableEq κ] {d : List (κ × α)} {k : κ} {v : α}
    (h : aget d k = some v) : (k, v) ∈ d := by
  induction d with
  | nil => simp [aget] at h
  | cons hd tl ih =>
    obtain ⟨k0, v0⟩ := hd
    by_cases hk : k0 = k
    · subst hk
      simp [aget] at h
      subst h
      exact List.mem_cons_self _ _
    · simp only [aget, if_neg hk] at h
      exact List.mem_cons_of_mem _ (ih h)

theorem mem_aset_elim {κ α : Type} [DecidableEq κ] {d : List (κ × α)} {k : κ} {v : α}
    {e : κ × α} (h : e ∈ aset d k v) : e = (k, v) ∨ e ∈ d := by
  induction d with
  | nil => simpa [aset] using h
  | cons hd tl ih =>
    obtain ⟨k0, v0⟩ := hd
    by_cases hk : k0 = k
    · subst hk
      simp only [aset, if_pos rfl] at h
      rcases List.mem_cons.1 h with h | h
      · exact Or.inl h
      · exact Or.inr (List.mem_cons_of_mem _ h)
    · simp only [aset, if_neg hk] at h
      rcases List.mem_cons.1 h with h | h
      · exact Or.inr (h ▸ List.mem_cons_self _ _)
      · rcases ih h with h | h
        · exact Or.inl h
        · exact Or.inr (List.mem_cons_of_mem _ h)

theorem mem_keys_aset {κ α : Type} [DecidableEq κ] {d : List (κ × α)} {k k' : κ} {v : α}
    (h : k' ∈ (aset d k v).map Prod.fst) : k' = k ∨ k' ∈ d.map Prod.fst := by
  rcases List.mem_map.1 h with ⟨e, he, hfst⟩
  rcases mem_aset_elim he with rfl | he'
  · exact Or.inl hfst.symm
  · exact Or.inr (hfst ▸ List.mem_map_of_mem _ he')

theorem nodup_keys_aset {κ α : Type} [DecidableEq κ] {d : List (κ × α)} (k : κ) (v : α)
    (h : (d.map Prod.fst).Nodup) : ((aset d k v).map Prod.fst).Nodup := by
  induction d with
  | nil => simp [aset]
  | cons hd tl ih =>
    obtain ⟨k0, v0⟩ := hd
    simp only [List.map_cons, List.nodup_cons] at h
    obtain ⟨hhd, htl⟩ := h
    by_cases hk : k0 = k
    · subst hk
      have hset : aset ((k0, v0) :: tl) k0 v = (k0, v) :: tl := by simp [aset]
      rw [hset]
      simp only [List.map_cons, List.nodup_cons]
      exact ⟨hhd, htl⟩
    · simp only [aset, if_neg hk, List.map_cons, List.nodup_cons]
      refine ⟨fun hmem => ?_, ih htl⟩
      rcases mem_keys_aset hmem with h1 | h1
      · exact hk h1
      · exact hhd h1

theorem aget_dictUpdate_of_none {base new : PropDict} {f : String}
    (h : aget new f = none) : aget (dictUpdate base new) f = aget base f := by
  induction new generalizing base with
  | nil => simp [dictUpdate]
  | cons hd tl ih =>
    by_cases hk : hd.1 = f
    · simp [aget, hk] at h
    · simp only [aget, hk, if_neg, not_false_iff] at h
      show aget (dictUpdate (aset base hd.1 hd.2) tl) f = _
      rw [ih h, aget_aset_ne _ _ _ _ fun hh => hk hh.symm]

theorem aget_dictUpdate_of_some {base new : PropDict} {f : String} {v : Json}
    (hnd : (new.map Prod.fst).Nodup) (h : aget new f = some v) :
    aget (dictUpdate base new) f = some v := by
  induction new generalizing base with
  | nil => simp [aget] at h
  | cons hd tl ih =>
    rcases List.nodup_cons.1 hnd with ⟨hhd, htl⟩
    by_cases hk : hd.1 = f
    · simp only [aget, hk, if_pos] at h
      cases h
      show aget (dictUpdate (aset base hd.1 hd.2) tl) f = _
      have htlnone : aget tl f = none := (aget_eq_none_iff tl f).2 (hk ▸ hhd)
      rw [aget_dictUpdate_of_none htlnone, ← hk]
      exact aget_aset_self base hd.1 hd.2
    · simp only [aget, hk, if_neg, not_false_iff] at h
      exact ih htl h

/-! ## Feature Deriver lemmas -/

theorem prepare_ok_elim {prop : Option PropDict} {fr : FeatureRecord}
    (h : prepare_model_input prop = .ok fr) :
    ∃ bedrooms bathrooms size amenities isSFH yb sr,
      coercedField prop "bedrooms" 3 = .ok bedrooms ∧
      coercedField prop "bathrooms" 2 = .ok bathrooms ∧
      coercedField prop "size_sqft" 1500 = .ok size ∧
      amenitiesVal prop = .ok amenities ∧
      sfhTest prop bedrooms = .ok isSFH ∧
      coercedField prop "year_built" 2015 = .ok yb ∧
      coercedField prop "school_rating" 7 = .ok sr ∧
      fr = { property_type := if isSFH then "SFH" else "Condo"
             lot_area := if (if isSFH then "SFH" else "Condo") = "SFH" then size * 2 else 0
             building_area := if (if isSFH then "SFH" else "Condo") = "Condo" then size else 0
             bedrooms := bedrooms
             bathrooms := bathrooms
             year_built := yb
             has_pool := amenities.any fun a => strContains a "pool"
             has_garage := amenities.any fun a => strContains a "garage"
             school_rating := sr } := by
  unfold prepare_model_input at h
  repeat' split at h
  all_goals cases h
  all_goals
    refine ⟨_, _, _, _, _, _, _, by assumption, by assumption, by assumption,
      by assumption, by assumption, by assumption, by assumption, ?_⟩
    simp_all

/-! ## Claim theorems: Feature Deriver -/

/-- C1 counterexample: on the raw property record with `size_sqft = 0`
(coerced size 0) the derived feature record has `lot_area = 0` AND
`building_area = 0` — not exactly one of them nonzero, refuting the claim as
stated. -/
theorem C1_counterexample :
    ∃ fr, prepare_model_input (some [("size_sqft", Json.num 0)]) = .ok fr ∧
      fr.lot_area = 0 ∧ fr.building_area = 0 :=
  ⟨{ property_type := "Condo", lot_area := 0, building_area := 0, bedrooms := 3,
     bathrooms := 2, year_built := 2015, has_pool := false, has_garage := false,
     school_rating := 7 }, by decide, rfl, rfl⟩

/-- C1 (amended): whenever the derived size (the coerced `size_sqft` field,
default 1500) is nonzero, exactly one of `lot_area`, `building_area` of the
derived feature record is nonzero, determined by `property_type`; with size 0
both are zero. -/
theorem C1_amended_exclusive_area (prop : Option PropDict) (s : Int)
    (fr : FeatureRecord)
    (hs : coercedField prop "size_sqft" 1500 = .ok s) (hnz : s ≠ 0)
    (h : prepare_model_input prop = .ok fr) :
    (fr.lot_area ≠ 0 ∧ fr.building_area = 0) ∨
    (fr.lot_area = 0 ∧ fr.building_area ≠ 0) := by
  obtain ⟨b, ba, size, am, isSFH, yb, sr, _, _, hsz, _, _, _, _, hfr⟩ := prepare_ok_elim h
  rw [hs] at hsz
  injection hsz with hsz
  subst hsz
  subst hfr
  cases isSFH with
  | true =>
    left
    refine ⟨?_, by simp⟩
    simp only [if_pos rfl]
    simpa using by omega
  | false =>
    right
    refine ⟨by simp, ?_⟩
    simpa using hnz

/-- Witness for the amended C1: a record with nonzero size (the default 1500,
via an absent record) has exactly one nonzero area. -/
theorem C1_amended_witness :
    (1500 : Int) ≠ 0 ∧
    ((baselineFeatures.lot_area ≠ 0 ∧ baselineFeatures.building_area = 0) ∨
     (baselineFeatures.lot_area = 0 ∧ baselineFeatures.building_area ≠ 0)) :=
  ⟨by decide,
   C1_amended_exclusive_area none 1500 baselineFeatures rfl (by decide) rfl⟩

/-- C6: a raw property record carrying a value for bedrooms, bathrooms,
size_sqft, year_built or school_rating that `int(...)` cannot coerce makes
the Feature Deriver raise (the error propagates; no default is substituted). -/
theorem C6_bad_coercion_raises (d : PropDict) (k : String) (v : Json)
    (hk : k = "bedrooms" ∨ k = "bathrooms" ∨ k = "size_sqft" ∨
          k = "year_built" ∨ k = "school_rating")
    (hv : aget d k = some v)
    (he : exIsErr (pyInt v) = true) :
    ∃ e, prepare_model_input (some d) = .error e := by
  cases hres : prepare_model_input (some d) with
  | error e => exact ⟨e, rfl⟩
  | ok fr =>
    exfalso
    have hdne : d.isEmpty = false := by
      cases d with
      | nil => simp [aget] at hv
      | cons hd tl => rfl
    have hfield : ∀ dflt : Int, coercedField (some d) k dflt = pyInt v := by
      intro dflt
      simp [coercedField, hdne, dget, hv]
    obtain ⟨b, ba, size, am, isSFH, yb, sr, h1, h2, h3, _, _, h6, h7, _⟩ :=
      prepare_ok_elim hres
    rcases hk with rfl | rfl | rfl | rfl | rfl
    · rw [hfield 3] at h1; rw [h1] at he; simp [exIsErr] at he
    · rw [hfield 2] at h2; rw [h2] at he; simp [exIsErr] at he
    · rw [hfield 1500] at h3; rw [h3] at he; simp [exIsErr] at he
    · rw [hfield 2015] at h6; rw [h6] at he; simp [exIsErr] at he
    · rw [hfield 7] at h7; rw [h7] at he; simp [exIsErr] at he

/-- Witness for C6: `bedrooms = "abc"` makes the deriver raise. -/
theorem C6_witness :
    aget [("bedrooms", Json.str "abc")] "bedrooms" = some (Json.str "abc") ∧
    exIsErr (pyInt (Json.str "abc")) = true ∧
    ∃ e, prepare_model_input (some [("bedrooms", Json.str "abc")]) = .error e :=
  ⟨rfl, rfl,
   C6_bad_coercion_raises [("bedrooms", Json.str "abc")] "bedrooms"
     (Json.str "abc") (Or.inl rfl) rfl rfl⟩

/-- C7: on any raw property record the deriver accepts, `property_type` is
"SFH" exactly when the coerced bedrooms value is at least 4 or the
lower-cased title (the empty string when the record or its title is absent,
so an absent title never contributes) contains the substring "house"; in
every other case it is "Condo". -/
theorem C7_property_type_iff (prop : Option PropDict) (fr : FeatureRecord)
    (b : Int) (t : String)
    (hb : coercedField prop "bedrooms" 3 = .ok b)
    (ht : titleVal prop = .ok t)
    (h : prepare_model_input prop = .ok fr) :
    (fr.property_type = "SFH" ↔ (4 ≤ b ∨ strContains t "house" = true)) ∧
    (fr.property_type ≠ "SFH" → fr.property_type = "Condo") := by
  obtain ⟨b', ba, size, am, isSFH, yb, sr, hb', _, _, _, hsfh, _, _, hfr⟩ :=
    prepare_ok_elim h
  rw [hb] at hb'
  injection hb' with hb'
  subst hb'
  subst hfr
  unfold sfhTest at hsfh
  by_cases h4 : b ≥ 4
  · rw [if_pos h4] at hsfh
    injection hsfh with hsfh
    subst hsfh
    exact ⟨by simp [h4], by simp⟩
  · rw [if_neg h4] at hsfh
    rw [ht] at hsfh
    injection hsfh with hsfh
    subst hsfh
    constructor
    · cases hc : strContains t "house" with
      | true => simp [hc]
      | false =>
        simp only [hc, if_neg Bool.false_ne_true]
        constructor
        · intro hcondo
          exact absurd hcondo (by decide)
        · intro hor
          rcases hor with h4' | hf
          · exact absurd h4' h4
          · exact absurd hf (by simp)
    · cases hc : strContains t "house" <;> simp [hc]

/-- Witness for C7: title "Lovely House" with 2 bedrooms is classified SFH. -/
theorem C7_witness :
    ∃ fr, prepare_model_input
        (some [("title", Json.str "Lovely House"), ("bedrooms", Json.num 2)]) =
        .ok fr ∧
      (fr.property_type = "SFH" ↔
        (4 ≤ (2 : Int) ∨ strContains "lovely house" "house" = true)) ∧
      (fr.property_type ≠ "SFH" → fr.property_type = "Condo") :=
  ⟨{ property_type := "SFH", lot_area := 3000, building_area := 0, bedrooms := 2,
     bathrooms := 2, year_built := 2015, has_pool := false, has_garage := false,
     school_rating := 7 }, by decide,
   C7_property_type_iff
     (some [("title", Json.str "Lovely House"), ("bedrooms", Json.num 2)])
     _ 2 "lovely house" (by decide) (by decide) (by decide)⟩

/-! ## Claim theorems: Price Estimator and endpoints -/

/-- C3: with no model handle loaded, the Price Estimator computes exactly the
rule-based linear formula stated by the spec (`specRulePrice`), and on the
feature record with building_area 1500, 3 bedrooms, 2 bathrooms, no pool and
no garage it returns 365000. -/
theorem C3_rule_based_price :
    (∀ fr : FeatureRecord, predict_with_model none fr = specRulePrice fr) ∧
    predict_with_model none baselineFeatures = 365000 := by
  refine ⟨fun fr => ?_, rfl⟩
  unfold predict_with_model specRulePrice
  by_cases hb : fr.building_area ≠ 0 <;> simp [hb] <;> ring

/-- C5: when a model handle is loaded and all three invocation shapes (one-row
DataFrame, singleton list of dicts, direct dict) raise or fail to yield an
indexable scalar, the Price Estimator returns exactly 350000 (and, having
return type `Int`, propagates no exception). -/
theorem C5_model_failure_fallback (m : Model) (fr : FeatureRecord)
    (h1 : exIsErr (attemptWith scalar0 m (.frame [featuresDict fr])) = true)
    (h2 : exIsErr (attemptWith scalar0 m (.seq [featuresDict fr])) = true)
    (h3 : exIsErr (attemptWith scalarDirect m (.dict (featuresDict fr))) = true) :
    predict_with_model (some m) fr = 350000 := by
  unfold predict_with_model
  cases ha1 : attemptWith scalar0 m (.frame [featuresDict fr]) with
  | ok x => rw [ha1] at h1; simp [exIsErr] at h1
  | error e1 =>
    cases ha2 : attemptWith scalar0 m (.seq [featuresDict fr]) with
    | ok x => rw [ha2] at h2; simp [exIsErr] at h2
    | error e2 =>
      cases ha3 : attemptWith scalarDirect m (.dict (featuresDict fr)) with
      | ok x => rw [ha3] at h3; simp [exIsErr] at h3
      | error e3 => simp [ha1, ha2, ha3]

/-- Witness for C5 at a model that raises on every shape. -/
theorem C5_witness :
    exIsErr (attemptWith scalar0 failModel (.frame [featuresDict baselineFeatures])) = true ∧
    exIsErr (attemptWith scalar0 failModel (.seq [featuresDict baselineFeatures])) = true ∧
    exIsErr (attemptWith scalarDirect failModel (.dict (featuresDict baselineFeatures))) = true ∧
    predict_with_model (some failModel) baselineFeatures = 350000 :=
  ⟨rfl, rfl, rfl, C5_model_failure_fallback failModel baselineFeatures rfl rfl rfl⟩

/-- C8: a `/compare` request in which either address is absent answers with
both result fields null, even when the other address is present. -/
theorem C8_compare_missing_address (model : Option Model)
    (a1 a2 : Option LocationPayload) (h : a1 = none ∨ a2 = none) :
    compare model a1 a2 = .ok (none, none) := by
  rcases h with h | h
  · subst h; cases a2 <;> rfl
  · subst h; cases a1 <;> rfl

/-- Witness for C8: address1 present, address2 absent. -/
theorem C8_witness :
    compare none (some ⟨"10 Main St", "1", [("city", Json.str "sf")]⟩) none =
      .ok (none, none) :=
  C8_compare_missing_address none
    (some ⟨"10 Main St", "1", [("city", Json.str "sf")]⟩) none (Or.inr rfl)

theorem dictUpdate_two (d : PropDict) (k1 k2 : String) (v1 v2 : Json) :
    dictUpdate d [(k1, v1), (k2, v2)] = aset (aset d k1 v1) k2 v2 := rfl

/-- C10: a `/compare` request with both addresses present answers, for each
side, with the input property's fields updated by freshly computed
`predicted_price` and `features` (overwriting same-named input fields), and
every other input field unchanged. -/
theorem C10_compare_merge_back (model : Option Model) (a1 a2 : LocationPayload)
    (fr1 fr2 : FeatureRecord)
    (h1 : prepare_model_input (some a1.property) = .ok fr1)
    (h2 : prepare_model_input (some a2.property) = .ok fr2) :
    ∃ r1 r2,
      compare model (some a1) (some a2) = .ok (some r1, some r2) ∧
      aget r1 "predicted_price" = some (.num (predict_with_model model fr1)) ∧
      aget r1 "features" = some (featuresJson fr1) ∧
      (∀ f, f ≠ "predicted_price" → f ≠ "features" →
        aget r1 f = aget a1.property f) ∧
      aget r2 "predicted_price" = some (.num (predict_with_model model fr2)) ∧
      aget r2 "features" = some (featuresJson fr2) ∧
      (∀ f, f ≠ "predicted_price" → f ≠ "features" →
        aget r2 f = aget a2.property f) := by
  have hne : ("features" : String) ≠ "predicted_price" := by decide
  refine ⟨dictUpdate a1.property
      [("predicted_price", .num (predict_with_model model fr1)),
       ("features", featuresJson fr1)],
    dictUpdate a2.property
      [("predicted_price", .num (predict_with_model model fr2)),
       ("features", featuresJson fr2)], ?_, ?_, ?_, ?_, ?_, ?_, ?_⟩
  · simp only [compare, h1, h2]
  · rw [dictUpdate_two, aget_aset_ne _ _ _ _ hne.symm]
    exact aget_aset_self _ _ _
  · rw [dictUpdate_two]
    exact aget_aset_self _ _ _
  · intro f hf1 hf2
    rw [dictUpdate_two, aget_aset_ne _ _ _ _ hf2, aget_aset_ne _ _ _ _ hf1]
  · rw [dictUpdate_two, aget_aset_ne _ _ _ _ hne.symm]
    exact aget_aset_self _ _ _
  · rw [dictUpdate_two]
    exact aget_aset_self _ _ _
  · intro f hf1 hf2
    rw [dictUpdate_two, aget_aset_ne _ _ _ _ hf2, aget_aset_ne _ _ _ _ hf1]

/-- Witness for C10 at two concrete payloads (one of which already carries a
`predicted_price` field, which gets overwritten). -/
theorem C10_witness :
    ∃ r1 r2,
      compare none
        (some ⟨"A", "1", [("city", Json.str "sf"), ("predicted_price", Json.num 1)]⟩)
        (some ⟨"B", "2", [("bedrooms", Json.num 4)]⟩) = .ok (some r1, some r2) ∧
      aget r1 "predicted_price" =
        some (.num (predict_with_model none baselineFeatures)) ∧
      aget r1 "features" = some (featuresJson baselineFeatures) ∧
      (∀ f, f ≠ "predicted_price" → f ≠ "features" →
        aget r1 f =
          aget [("city", Json.str "sf"), ("predicted_price", Json.num 1)] f) ∧
      aget r2 "predicted_price" =
        some (.num (predict_with_model none
          { property_type := "SFH", lot_area := 3000, building_area := 0,
            bedrooms := 4, bathrooms := 2, year_built := 2015, has_pool := false,
            has_garage := false, school_rating := 7 })) ∧
      aget r2 "features" = some (featuresJson
          { property_type := "SFH", lot_area := 3000, building_area := 0,
            bedrooms := 4, bathrooms := 2, year_built := 2015, has_pool := false,
            has_garage := false, school_rating := 7 }) ∧
      (∀ f, f ≠ "predicted_price" → f ≠ "features" →
        aget r2 f = aget [("bedrooms", Json.num 4)] f) :=
  C10_compare_merge_back none
    ⟨"A", "1", [("city", Json.str "sf"), ("predicted_price", Json.num 1)]⟩
    ⟨"B", "2", [("bedrooms", Json.num 4)]⟩
    baselineFeatures
    { property_type := "SFH", lot_area := 3000, building_area := 0,
      bedrooms := 4, bathrooms := 2, year_built := 2015, has_pool := false,
      has_garage := false, school_rating := 7 }
    (by decide) (by decide)

/-- C9: the Feature Deriver maps the empty property record to exactly the
same feature record as an absent one — every default applies (bedrooms 3,
bathrooms 2, size 1500 hence building_area 1500, no amenities, empty title
hence Condo, year_built 2015, school_rating 7). -/
theorem C9_empty_record_defaults :
    prepare_model_input (some []) = prepare_model_input none ∧
    prepare_model_input (some []) = .ok baselineFeatures :=
  ⟨rfl, rfl⟩

/-! ## Record Merger lemmas -/

theorem processItem_good {item : Json} (m : IdMap) (h : goodItem item = true) :
    processItem m item = .ok (stepJson m item) := by
  cases item with
  | obj fields =>
    simp only [goodItem] at h
    cases hid : idStatus fields with
    | none => simp [processItem, stepJson, hid]
    | some v =>
      simp only [hid] at h
      cases hk : toHKey v with
      | none => rw [hk] at h; simp [Option.isSome] at h
      | some k => simp [processItem, stepJson, hid, hk]
  | null => simp [goodItem] at h
  | bool b => simp [goodItem] at h
  | num n => simp [goodItem] at h
  | str s => simp [goodItem] at h
  | arr xs => simp [goodItem] at h

theorem foldlM_processItem_good {items : List Json} (m : IdMap)
    (h : ∀ it ∈ items, goodItem it = true) :
    items.foldlM processItem m = .ok (items.foldl stepJson m) := by
  induction items generalizing m with
  | nil => rfl
  | cons hd tl ih =>
    have hh := h hd (List.mem_cons_self _ _)
    rw [List.foldlM_cons, processItem_good m hh]
    show tl.foldlM processItem (stepJson m hd) = _
    rw [List.foldl_cons]
    exact ih (stepJson m hd) fun it hit => h it (List.mem_cons_of_mem _ hit)

theorem mergeStep_good {f : FileResult} (m : IdMap) (h : goodFile f = true) :
    mergeStep m f = .ok (pureFileStep m f) := by
  cases f with
  | missing => rfl
  | malformed => rfl
  | parsed j =>
    cases j with
    | arr items =>
      show processFile m (.arr items) = .ok (items.foldl stepJson m)
      exact foldlM_processItem_good m fun it hit =>
        List.all_eq_true.1 (by simpa [goodFile] using h) it hit
    | null => simp [goodFile] at h
    | bool b => simp [goodFile] at h
    | num n => simp [goodFile] at h
    | str s => simp [goodFile] at h
    | obj fields => simp [goodFile] at h

theorem foldlM_mergeStep_good {files : List FileResult} (m : IdMap)
    (h : ∀ f ∈ files, goodFile f = true) :
    files.foldlM mergeStep m = .ok (files.foldl pureFileStep m) := by
  induction files generalizing m with
  | nil => rfl
  | cons hd tl ih =>
    rw [List.foldlM_cons, mergeStep_good m (h hd (List.mem_cons_self _ _))]
    show tl.foldlM mergeStep (pureFileStep m hd) = _
    rw [List.foldl_cons]
    exact ih (pureFileStep m hd) fun f hf => h f (List.mem_cons_of_mem _ hf)

theorem foldlM_mergeStep_filter (files : List FileResult) (m : IdMap) :
    files.foldlM mergeStep m =
      (files.filter fun f => (parsedOf f).isSome).foldlM mergeStep m := by
  induction files generalizing m with
  | nil => rfl
  | cons hd tl ih =>
    cases hd with
    | missing =>
      show tl.foldlM mergeStep m = _
      rw [show List.filter (fun f => (parsedOf f).isSome) (FileResult.missing :: tl) =
        List.filter (fun f => (parsedOf f).isSome) tl from by simp [List.filter, parsedOf]]
      exact ih m
    | malformed =>
      show tl.foldlM mergeStep m = _
      rw [show List.filter (fun f => (parsedOf f).isSome) (FileResult.malformed :: tl) =
        List.filter (fun f => (parsedOf f).isSome) tl from by simp [List.filter, parsedOf]]
      exact ih m
    | parsed j =>
      rw [show List.filter (fun f => (parsedOf f).isSome) (FileResult.parsed j :: tl) =
        FileResult.parsed j :: List.filter (fun f => (parsedOf f).isSome) tl from by
          simp [List.filter, parsedOf]]
      rw [List.foldlM_cons, List.foldlM_cons]
      cases hp : mergeStep m (.parsed j) with
      | error e => rfl
      | ok m' =>
        show tl.foldlM mergeStep m' = _
        exact ih m'

/-! ## Claim theorems: Record Merger -/

/-- C2 counterexample: a file whose contents are valid JSON but not an array
of objects (here the JSON number 5) makes `load_and_merge_data` raise an
uncaught TypeError — the `except` clause only catches missing-file and
JSON-parse errors — so the merge is not raise-free for every file contents. -/
theorem C2_counterexample :
    exIsErr (load_and_merge_data
      [.parsed (.arr [.obj [("id", Json.num 1), ("a", Json.num 2)]]),
       .parsed (.num 5)]) = true := by decide

/-- C2 (amended): missing-file and JSON-parse errors are caught and the file
skipped without affecting other files' records (dropping skipped files leaves
the result unchanged), and the merge never raises provided every successfully
parsed file is a JSON array of objects whose ids, when present and non-null,
are hashable.  (It is not raise-free unconditionally: the counterexample
shows a file parsing to the bare JSON number 5 raises.) -/
theorem C2_amended_skip_and_no_raise (files : List FileResult)
    (h : ∀ f ∈ files, goodFile f = true) :
    (∃ out, load_and_merge_data files = .ok out) ∧
    load_and_merge_data files =
      load_and_merge_data (files.filter fun f => (parsedOf f).isSome) := by
  constructor
  · refine ⟨(mergePure files).map (fun kv => kv.2), ?_⟩
    unfold load_and_merge_data mergePure
    rw [foldlM_mergeStep_good ([] : IdMap) h]
  · unfold load_and_merge_data
    rw [foldlM_mergeStep_filter files ([] : IdMap)]

/-- Witness for the amended C2: one good file together with a missing and a
malformed one merges without raising, and equals the merge of the parsed
files alone. -/
theorem C2_witness :
    (∀ f ∈ [FileResult.missing, FileResult.malformed,
            FileResult.parsed (.arr [.obj [("id", Json.num 1)]])],
      goodFile f = true) ∧
    ((∃ out, load_and_merge_data
        [FileResult.missing, FileResult.malformed,
         FileResult.parsed (.arr [.obj [("id", Json.num 1)]])] = .ok out) ∧
     load_and_merge_data
        [FileResult.missing, FileResult.malformed,
         FileResult.parsed (.arr [.obj [("id", Json.num 1)]])] =
       load_and_merge_data
         ([FileResult.missing, FileResult.malformed,
           FileResult.parsed (.arr [.obj [("id", Json.num 1)]])].filter
            fun f => (parsedOf f).isSome)) :=
  ⟨by decide,
   C2_amended_skip_and_no_raise
     [FileResult.missing, FileResult.malformed,
      FileResult.parsed (.arr [.obj [("id", Json.num 1)]])] (by decide)⟩

theorem toHKey_eq {v : Json} {k : HKey} (h : toHKey v = some k) :
    v = hkeyToJson k := by
  cases v with
  | null => simp only [toHKey, Option.some.injEq] at h; rw [← h]; rfl
  | bool b => simp only [toHKey, Option.some.injEq] at h; rw [← h]; rfl
  | num n => simp only [toHKey, Option.some.injEq] at h; rw [← h]; rfl
  | str s => simp only [toHKey, Option.some.injEq] at h; rw [← h]; rfl
  | arr xs => simp [toHKey] at h
  | obj fields => simp [toHKey] at h

theorem hkeyToJson_inj {a b : HKey} (h : hkeyToJson a = hkeyToJson b) : a = b := by
  cases a <;> cases b <;> simp_all [hkeyToJson]

theorem idStatus_eq_some {fields : PropDict} {v : Json}
    (h : idStatus fields = some v) : aget fields "id" = some v := by
  unfold idStatus at h
  cases ha : aget fields "id" with
  | none => rw [ha] at h; exact absurd h (by simp)
  | some w =>
    rw [ha] at h
    cases w <;> simp_all

theorem goodItem_of_cleanItem {it : Json} (h : cleanItem it = true) :
    goodItem it = true := by
  cases it with
  | obj fields =>
    simp only [cleanItem, Bool.and_eq_true] at h
    exact h.1
  | null => simp [cleanItem] at h
  | bool b => simp [cleanItem] at h
  | num n => simp [cleanItem] at h
  | str s => simp [cleanItem] at h
  | arr xs => simp [cleanItem] at h

theorem nodup_keys_of_cleanItem {fields : PropDict}
    (h : cleanItem (.obj fields) = true) : (fields.map Prod.fst).Nodup := by
  simp only [cleanItem, Bool.and_eq_true, decide_eq_true_eq] at h
  exact h.2

theorem mem_items_of_recsWithId {k : HKey} {items : List Json} {fields : PropDict}
    (h : fields ∈ recsWithId k items) : Json.obj fields ∈ items := by
  unfold recsWithId at h
  rcases List.mem_filterMap.1 h with ⟨it, hit, hmatch⟩
  cases it with
  | obj fs =>
    cases hid : idStatus fs with
    | none => simp [hid] at hmatch
    | some v =>
      simp only [hid] at hmatch
      by_cases ht : toHKey v = some k
      · rw [if_pos ht] at hmatch
        injection hmatch with hmatch
        exact hmatch ▸ hit
      · rw [if_neg ht] at hmatch
        exact absurd hmatch (by simp)
  | null => simp at hmatch
  | bool b => simp at hmatch
  | num n => simp at hmatch
  | str s => simp at hmatch
  | arr xs => simp at hmatch

theorem aget_stepJson_of_ne {m : IdMap} {item : Json} {k : HKey}
    (h : idKeyOf item ≠ some k) : aget (stepJson m item) k = aget m k := by
  cases item with
  | obj fields =>
    simp only [idKeyOf] at h
    cases hid : idStatus fields with
    | none => simp [stepJson, hid]
    | some v =>
      simp only [hid] at h
      cases hk : toHKey v with
      | none => simp [stepJson, hid, hk]
      | some k' =>
        rw [hk] at h
        have hne : k' ≠ k := fun he => h (by rw [he])
        simp only [stepJson, hid, hk]
        exact aget_aset_ne _ _ _ _ hne.symm
  | null => simp [stepJson]
  | bool b => simp [stepJson]
  | num n => simp [stepJson]
  | str s => simp [stepJson]
  | arr xs => simp [stepJson]

theorem aget_stepJson_of_eq {m : IdMap} {fields : PropDict} {v : Json} {k : HKey}
    (hid : idStatus fields = some v) (hk : toHKey v = some k) :
    aget (stepJson m (.obj fields)) k =
      some (dictUpdate ((aget m k).getD []) fields) := by
  simp only [stepJson, hid, hk]
  exact aget_aset_self _ _ _

theorem recsWithId_cons_hit {k : HKey} {fields : PropDict} {v : Json}
    (items : List Json) (hid : idStatus fields = some v) (hk : toHKey v = some k) :
    recsWithId k (Json.obj fields :: items) = fields :: recsWithId k items := by
  simp [recsWithId, List.filterMap_cons, hid, hk]

theorem recsWithId_cons_miss {k : HKey} {item : Json}
    (items : List Json) (h : idKeyOf item ≠ some k) :
    recsWithId k (item :: items) = recsWithId k items := by
  cases item with
  | obj fields =>
    simp only [idKeyOf] at h
    cases hid : idStatus fields with
    | none => simp [recsWithId, List.filterMap_cons, hid]
    | some v =>
      rw [hid] at h
      simp only [recsWithId, List.filterMap_cons, hid, if_neg h]
  | null => simp [recsWithId, List.filterMap_cons]
  | bool b => simp [recsWithId, List.filterMap_cons]
  | num n => simp [recsWithId, List.filterMap_cons]
  | str s => simp [recsWithId, List.filterMap_cons]
  | arr xs => simp [recsWithId, List.filterMap_cons]

theorem aget_foldl_stepJson (items : List Json) (m : IdMap) (k : HKey) :
    aget (items.foldl stepJson m) k =
      (recsWithId k items).foldl
        (fun acc fs => some (dictUpdate (acc.getD []) fs)) (aget m k) := by
  induction items generalizing m with
  | nil => rfl
  | cons hd tl ih =>
    rw [List.foldl_cons]
    by_cases hc : idKeyOf hd = some k
    · obtain ⟨fields, v, rfl, hid, hk⟩ :
        ∃ fields v, hd = Json.obj fields ∧ idStatus fields = some v ∧
          toHKey v = some k := by
        cases hd with
        | obj fields =>
          simp only [idKeyOf] at hc
          cases hid : idStatus fields with
          | none => simp only [hid] at hc; exact absurd hc (by simp)
          | some v => simp only [hid] at hc; exact ⟨fields, v, rfl, hid, hc⟩
        | null => simp [idKeyOf] at hc
        | bool b => simp [idKeyOf] at hc
        | num n => simp [idKeyOf] at hc
        | str s => simp [idKeyOf] at hc
        | arr xs => simp [idKeyOf] at hc
      rw [recsWithId_cons_hit tl hid hk, List.foldl_cons, ih,
        aget_stepJson_of_eq hid hk]
    · rw [recsWithId_cons_miss tl hc, ih, aget_stepJson_of_ne hc]

theorem nodup_keys_stepJson {m : IdMap} (item : Json)
    (h : (m.map Prod.fst).Nodup) : ((stepJson m item).map Prod.fst).Nodup := by
  cases item with
  | obj fields =>
    cases hid : idStatus fields with
    | none => simpa [stepJson, hid] using h
    | some v =>
      cases hk : toHKey v with
      | none => simpa [stepJson, hid, hk] using h
      | some k =>
        simp only [stepJson, hid, hk]
        exact nodup_keys_aset _ _ h
  | null => simpa [stepJson] using h
  | bool b => simpa [stepJson] using h
  | num n => simpa [stepJson] using h
  | str s => simpa [stepJson] using h
  | arr xs => simpa [stepJson] using h

theorem entriesOk_stepJson {m : IdMap} {item : Json}
    (hm : ∀ e ∈ m, aget e.2 "id" = some (hkeyToJson e.1))
    (hc : cleanItem item = true) :
    ∀ e ∈ stepJson m item, aget e.2 "id" = some (hkeyToJson e.1) := by
  cases item with
  | obj fields =>
    have hnd : (fields.map Prod.fst).Nodup := nodup_keys_of_cleanItem hc
    cases hid : idStatus fields with
    | none => simpa [stepJson, hid] using hm
    | some v =>
      cases hk : toHKey v with
      | none => simpa [stepJson, hid, hk] using hm
      | some k =>
        simp only [stepJson, hid, hk]
        intro e he
        rcases mem_aset_elim he with rfl | he'
        · have hvid : aget fields "id" = some v := idStatus_eq_some hid
          have : aget (dictUpdate ((aget m k).getD []) fields) "id" = some v :=
            aget_dictUpdate_of_some hnd hvid
          rw [this, toHKey_eq hk]
        · exact hm e he'
  | null => simp [cleanItem] at hc
  | bool b => simp [cleanItem] at hc
  | num n => simp [cleanItem] at hc
  | str s => simp [cleanItem] at hc
  | arr xs => simp [cleanItem] at hc

theorem invariants_foldl (items : List Json) (m : IdMap)
    (hc : ∀ it ∈ items, cleanItem it = true)
    (hnd : (m.map Prod.fst).Nodup)
    (hok : ∀ e ∈ m, aget e.2 "id" = some (hkeyToJson e.1)) :
    ((items.foldl stepJson m).map Prod.fst).Nodup ∧
    ∀ e ∈ items.foldl stepJson m, aget e.2 "id" = some (hkeyToJson e.1) := by
  induction items generalizing m with
  | nil => exact ⟨hnd, hok⟩
  | cons hd tl ih =>
    rw [List.foldl_cons]
    exact ih (stepJson m hd) (fun it hit => hc it (List.mem_cons_of_mem _ hit))
      (nodup_keys_stepJson hd hnd)
      (entriesOk_stepJson hok (hc hd (List.mem_cons_self _ _)))

/-- C4: over two source files — each a JSON array of objects with no
duplicate keys and well-formed ids — in which exactly one record `r1` of file
1 and exactly one record `r2` of file 2 carry the same non-null id `k`, the
merge produces exactly one catalog record for that id: every field present in
`r2` has `r2`'s value (file 2 overwrites collisions), and every field present
only in `r1` is retained. -/
theorem C4_merge_overwrite (items1 items2 : List Json) (r1 r2 : PropDict)
    (k : HKey)
    (hc1 : ∀ it ∈ items1, cleanItem it = true)
    (hc2 : ∀ it ∈ items2, cleanItem it = true)
    (hr1 : recsWithId k items1 = [r1])
    (hr2 : recsWithId k items2 = [r2]) :
    ∃ pre post rec,
      load_and_merge_data [.parsed (.arr items1), .parsed (.arr items2)] =
        .ok (pre ++ rec :: post) ∧
      aget rec "id" = some (hkeyToJson k) ∧
      (∀ r ∈ pre, aget r "id" ≠ some (hkeyToJson k)) ∧
      (∀ r ∈ post, aget r "id" ≠ some (hkeyToJson k)) ∧
      (∀ f v, aget r2 f = some v → aget rec f = some v) ∧
      (∀ f v, aget r2 f = none → aget r1 f = some v → aget rec f = some v) := by
  have hgood : ∀ f ∈ [FileResult.parsed (.arr items1),
      FileResult.parsed (.arr items2)], goodFile f = true := by
    intro f hf
    rcases List.mem_cons.1 hf with rfl | hf
    · exact List.all_eq_true.2 fun it hit => goodItem_of_cleanItem (hc1 it hit)
    rcases List.mem_cons.1 hf with rfl | hf
    · exact List.all_eq_true.2 fun it hit => goodItem_of_cleanItem (hc2 it hit)
    · simp at hf
  have hload : load_and_merge_data
      [.parsed (.arr items1), .parsed (.arr items2)] =
      .ok ((items2.foldl stepJson (items1.foldl stepJson [])).map fun kv => kv.2) := by
    unfold load_and_merge_data
    rw [foldlM_mergeStep_good ([] : IdMap) hgood]
    rfl
  have hm1k : aget (items1.foldl stepJson ([] : IdMap)) k =
      some (dictUpdate [] r1) := by
    rw [aget_foldl_stepJson, hr1]
    rfl
  have hm2k : aget (items2.foldl stepJson (items1.foldl stepJson ([] : IdMap))) k =
      some (dictUpdate (dictUpdate [] r1) r2) := by
    rw [aget_foldl_stepJson, hr2, hm1k]
    rfl
  have hinv1 := invariants_foldl items1 ([] : IdMap) hc1 (by simp) (by simp)
  have hinv2 := invariants_foldl items2 (items1.foldl stepJson ([] : IdMap)) hc2
    hinv1.1 hinv1.2
  have hmem : (k, dictUpdate (dictUpdate [] r1) r2) ∈
      items2.foldl stepJson (items1.foldl stepJson ([] : IdMap)) :=
    mem_of_aget_eq_some hm2k
  obtain ⟨s, t, hsplit⟩ := List.append_of_mem hmem
  have hnd : ((s ++ (k, dictUpdate (dictUpdate [] r1) r2) :: t).map Prod.fst).Nodup := by
    rw [← hsplit]
    exact hinv2.1
  simp only [List.map_append, List.map_cons] at hnd
  obtain ⟨hnds, hndkt, hdisj⟩ := List.nodup_append.1 hnd
  obtain ⟨hknotin, hndt⟩ := List.nodup_cons.1 hndkt
  have hr1nd : (r1.map Prod.fst).Nodup :=
    nodup_keys_of_cleanItem
      (hc1 _ (mem_items_of_recsWithId (hr1 ▸ List.mem_singleton.2 rfl)))
  have hr2nd : (r2.map Prod.fst).Nodup :=
    nodup_keys_of_cleanItem
      (hc2 _ (mem_items_of_recsWithId (hr2 ▸ List.mem_singleton.2 rfl)))
  refine ⟨s.map (fun kv => kv.2), t.map (fun kv => kv.2),
    dictUpdate (dictUpdate [] r1) r2, ?_, ?_, ?_, ?_, ?_, ?_⟩
  · rw [hload, hsplit]
    simp
  · exact hinv2.2 _ hmem
  · intro r hr hcontra
    rcases List.mem_map.1 hr with ⟨e, hes, rfl⟩
    have heid := hinv2.2 e (by rw [hsplit]; exact List.mem_append_left _ hes)
    rw [heid] at hcontra
    have heq : e.1 = k := hkeyToJson_inj (Option.some.inj hcontra)
    have hin2 : e.1 ∈ k :: t.map Prod.fst := by
      rw [heq]
      exact List.mem_cons_self _ _
    exact hdisj (List.mem_map_of_mem _ hes) hin2
  · intro r hr hcontra
    rcases List.mem_map.1 hr with ⟨e, het, rfl⟩
    have heid := hinv2.2 e
      (by rw [hsplit]; exact List.mem_append_right _ (List.mem_cons_of_mem _ het))
    rw [heid] at hcontra
    have heq : e.1 = k := hkeyToJson_inj (Option.some.inj hcontra)
    exact hknotin (heq ▸ List.mem_map_of_mem Prod.fst het)
  · intro f v hv
    exact aget_dictUpdate_of_some hr2nd hv
  · intro f v hnone hv
    rw [aget_dictUpdate_of_none hnone]
    exact aget_dictUpdate_of_some hr1nd hv

/-- Witness for C4 at two concrete one-record files sharing id 1, where file
2 overwrites `price` and file 1 contributes `city`. -/
theorem C4_witness :
    ∃ pre post rec,
      load_and_merge_data
        [.parsed (.arr [.obj [("id", Json.num 1), ("price", Json.num 100),
                              ("city", Json.str "x")]]),
         .parsed (.arr [.obj [("id", Json.num 1), ("price", Json.num 200)]])] =
        .ok (pre ++ rec :: post) ∧
      aget rec "id" = some (hkeyToJson (.num 1)) ∧
      (∀ r ∈ pre, aget r "id" ≠ some (hkeyToJson (.num 1))) ∧
      (∀ r ∈ post, aget r "id" ≠ some (hkeyToJson (.num 1))) ∧
      (∀ f v, aget [("id", Json.num 1), ("price", Json.num 200)] f = some v →
        aget rec f = some v) ∧
      (∀ f v, aget [("id", Json.num 1), ("price", Json.num 200)] f = none →
        aget [("id", Json.num 1), ("price", Json.num 100), ("city", Json.str "x")]
          f = some v →
        aget rec f = some v) :=
  C4_merge_overwrite
    [.obj [("id", Json.num 1), ("price", Json.num 100), ("city", Json.str "x")]]
    [.obj [("id", Json.num 1), ("price", Json.num 200)]]
    [("id", Json.num 1), ("price", Json.num 100), ("city", Json.str "x")]
    [("id", Json.num 1), ("price", Json.num 200)]
    (.num 1) (by decide) (by decide) rfl rfl

end Mira
